import Mathlib

/-!
Shallow embedding of `chronological_waffle_munger.py` (fitbit-data-scripts).

Modelling conventions:
* Timestamps are integers: minutes since local midnight of the processing
  date.  `create_time_bins` (source lines 87-107) starts at local midnight
  (0) and ends at the following local midnight (1440); pytz `localize`
  arithmetic keeps a constant UTC offset, so the local day is exactly
  24 h = 1440 min and integer minute arithmetic is faithful.
* Python real division is modelled by `ℚ` division; the bin midpoint
  (`bin_start + (bin_end - bin_start)/2`) therefore lives in `ℚ`.
* `calculate_hr_zones` (lines 29-54) divides by `max_hr`; for `max_hr = 0`
  Python raises ZeroDivisionError, modelled by `calculate_hr_zones_opt`
  returning `none`.  For `max_hr ≠ 0` the total function
  `calculate_hr_zones` agrees with the source.
* Python `dict` preserves insertion order; `zone_counts` is modelled as an
  association list with first-occurrence insertion order (`dictIncr`), and
  `max(keys, key=...)` as `pyMaxByCount` (first maximal key wins, since
  Python's `max` only replaces the current best on a strictly larger key
  value).
* Database access, CLI parsing and printing are outside the embedded core;
  `calculate_dominant_zone_for_bin` receives the already-materialised
  heart-rate and sleep lists, as the source function does.
-/

namespace Waffle

/-- `calculate_hr_zones` (source lines 29-54), total version used when
`max_hr ≠ 0`: percentage-of-max classification into zones 0-6 with the
source's `if/elif` cascade. -/
def calculate_hr_zones (heart_rate : Int) (max_hr : Int) : Nat :=
  if heart_rate ≤ 0 then 0
  else
    let percentage : ℚ := ((heart_rate : ℚ) / (max_hr : ℚ)) * 100
    if percentage < 50 then 1
    else if percentage < 60 then 2
    else if percentage < 70 then 3
    else if percentage < 80 then 4
    else if percentage < 90 then 5
    else 6

/-- `calculate_hr_zones` with Python's failure mode made explicit: when
`heart_rate > 0` and `max_hr = 0` the source raises ZeroDivisionError at
line 41 (`heart_rate / max_hr`), modelled as `none`.  The `heart_rate <= 0`
early return at line 38 happens before the division. -/
def calculate_hr_zones_opt (heart_rate : Int) (max_hr : Int) : Option Nat :=
  if heart_rate ≤ 0 then some 0
  else if max_hr = 0 then none
  else some (calculate_hr_zones heart_rate max_hr)

/-- `is_sleeping` (source lines 80-85): the timestamp is inside some sleep
period's closed range.  The timestamp is `ℚ` because the caller passes the
bin midpoint. -/
def is_sleeping (timestamp : ℚ) (sleep_periods : List (Int × Int)) : Bool :=
  sleep_periods.any fun p => decide ((p.1 : ℚ) ≤ timestamp) && decide (timestamp ≤ (p.2 : ℚ))

/-- The `while current_time < end_of_day` loop of `create_time_bins`
(source lines 102-105), with explicit fuel; 1440 iterations suffice for any
positive `bin_minutes` since each step advances by at least one minute. -/
def binsFrom (bin_minutes : Int) : Nat → Int → List (Int × Int)
  | 0, _ => []
  | fuel + 1, current =>
    if current < 1440 then
      (current, current + bin_minutes) :: binsFrom bin_minutes fuel (current + bin_minutes)
    else []

/-- `create_time_bins` (source lines 87-107) in minutes since local
midnight: bins from midnight (0) to the following midnight (1440). -/
def create_time_bins (bin_minutes : Int) : List (Int × Int) :=
  binsFrom bin_minutes 1440 0

/-- `zone_counts[zone] = zone_counts.get(zone, 0) + 1` (source line 156) on
an insertion-ordered association list: increment the first matching key,
else append the new key with count 1 (Python dict semantics). -/
def dictIncr : List (Nat × Nat) → Nat → List (Nat × Nat)
  | [], k => [(k, 1)]
  | (k', v) :: rest, k =>
    if k' = k then (k', v + 1) :: rest else (k', v) :: dictIncr rest k

/-- `zone_counts.get(k, 0)`: first matching key's value, default 0. -/
def dictLookup : List (Nat × Nat) → Nat → Nat
  | [], _ => 0
  | (k', v) :: rest, k => if k' = k then v else dictLookup rest k

/-- Loop of Python `max(iterable, key=f)`: the current best is replaced
only on a strictly larger key value, so the first maximal element wins. -/
def pyMaxGo (best_k best_v : Nat) : List (Nat × Nat) → Nat
  | [] => best_k
  | (k, v) :: rest => if best_v < v then pyMaxGo k v rest else pyMaxGo best_k best_v rest

/-- `max(zone_counts.keys(), key=lambda k: zone_counts[k])` (source line
157), guarded by `if zones:` at line 154: `none` on the empty dict. -/
def pyMaxByCount : List (Nat × Nat) → Option Nat
  | [] => none
  | (k, v) :: rest => some (pyMaxGo k v rest)

/-- Python `min(list)` over a nonempty list, `none` when empty (the source
guards with a conditional expression at line 165). -/
def pyMin : List Int → Option Int
  | [] => none
  | x :: xs => some (xs.foldl min x)

/-- Python `max(list)` over a nonempty list, `none` when empty (line 166). -/
def pyMax : List Int → Option Int
  | [] => none
  | x :: xs => some (xs.foldl max x)

/-- Python `sum(list)`. -/
def pySum (xs : List Int) : Int := xs.foldl (· + ·) 0

/-- The record returned by `calculate_dominant_zone_for_bin` (source lines
159-170).  `bin_index`/grid decoration added afterwards by the caller
(lines 196-210) is presentation metadata and not part of this record. -/
structure BinResult where
  bin_start : Int
  bin_end : Int
  is_sleep : Bool
  hr_readings_count : Nat
  avg_hr : Option ℚ
  min_hr : Option Int
  max_hr : Option Int
  dominant_zone : Option Nat
  zone_counts : List (Nat × Nat)
  all_zones : List Nat
  deriving Repr, DecidableEq

/-- `calculate_dominant_zone_for_bin` (source lines 123-170): midpoint
sleep test, half-open `[bin_start, bin_end)` sample collection, per-sample
zone classification, insertion-ordered tally, Python-`max` dominant zone,
and raw-bpm count/avg/min/max. -/
def calculate_dominant_zone_for_bin (bin_start bin_end : Int)
    (hr_data : List (Int × Int)) (sleep_periods : List (Int × Int))
    (max_hr : Int) : BinResult :=
  let bin_midpoint : ℚ := (bin_start : ℚ) + ((bin_end : ℚ) - (bin_start : ℚ)) / 2
  let is_sleep_bin := is_sleeping bin_midpoint sleep_periods
  let bin_hr_readings :=
    (hr_data.filter fun s => decide (bin_start ≤ s.1) && decide (s.1 < bin_end)).map Prod.snd
  let zones := bin_hr_readings.map fun hr => calculate_hr_zones hr max_hr
  let zone_counts := zones.foldl dictIncr []
  let dominant_zone := pyMaxByCount zone_counts
  { bin_start := bin_start
    bin_end := bin_end
    is_sleep := is_sleep_bin
    hr_readings_count := bin_hr_readings.length
    avg_hr :=
      if bin_hr_readings.isEmpty then none
      else some ((pySum bin_hr_readings : ℚ) / (bin_hr_readings.length : ℚ))
    min_hr := pyMin bin_hr_readings
    max_hr := pyMax bin_hr_readings
    dominant_zone := dominant_zone
    zone_counts := zone_counts
    all_zones := zones }

/-- The per-bin loop of `create_chronological_waffle_data` (source lines
191-212), with the already-fetched sleep and heart-rate lists as inputs;
the grid decoration is presentation metadata and omitted. -/
def create_chronological_waffle_data (bin_minutes : Int) (max_hr : Int)
    (sleep_periods : List (Int × Int)) (hr_data : List (Int × Int)) :
    List BinResult :=
  (create_time_bins bin_minutes).map fun b =>
    calculate_dominant_zone_for_bin b.1 b.2 hr_data sleep_periods max_hr

/-- The aggregate zone tally of `print_waffle_summary` (source lines
222-227): count only bins that are not sleep and have a non-null dominant
zone. -/
def summary_zone_counts (waffle_data : List BinResult) : List (Nat × Nat) :=
  waffle_data.foldl
    (fun acc b =>
      match b.dominant_zone with
      | some z => if b.is_sleep then acc else dictIncr acc z
      | none => acc) []

/-- Sum of the tally values of a zone-count dictionary. -/
def sumValues (d : List (Nat × Nat)) : Nat := (d.map Prod.snd).sum

/-! ### Helper lemmas about the zone classifier -/

/-- For positive `max_hr`, the rational percentage thresholds of
`calculate_hr_zones` are equivalent to integer cross-multiplied
comparisons; this makes the classifier kernel-evaluable at concrete
inputs. -/
theorem calculate_hr_zones_eq_int (bpm m : Int) (hm : 0 < m) :
    calculate_hr_zones bpm m =
      if bpm ≤ 0 then 0
      else if 2 * bpm < m then 1
      else if 10 * bpm < 6 * m then 2
      else if 10 * bpm < 7 * m then 3
      else if 10 * bpm < 8 * m then 4
      else if 10 * bpm < 9 * m then 5
      else 6 := by
  have hmq : (0:ℚ) < (m:ℚ) := by exact_mod_cast hm
  have aux : ∀ T : ℚ, (((bpm:ℚ) / (m:ℚ)) * 100 < T ↔ (bpm:ℚ) * 100 < T * (m:ℚ)) := by
    intro T
    rw [div_mul_eq_mul_div, div_lt_iff₀ hmq]
  have a50 : (((bpm:ℚ) / (m:ℚ)) * 100 < 50 ↔ 2 * bpm < m) := by
    rw [aux]
    constructor <;> intro h
    · exact_mod_cast (by push_cast at h ⊢; linarith : ((2 * bpm : Int) : ℚ) < ((m : Int) : ℚ))
    · have h' : ((2 * bpm : Int) : ℚ) < ((m : Int) : ℚ) := by exact_mod_cast h
      push_cast at h' ⊢; linarith
  have a60 : (((bpm:ℚ) / (m:ℚ)) * 100 < 60 ↔ 10 * bpm < 6 * m) := by
    rw [aux]
    constructor <;> intro h
    · exact_mod_cast (by push_cast at h ⊢; linarith : ((10 * bpm : Int) : ℚ) < ((6 * m : Int) : ℚ))
    · have h' : ((10 * bpm : Int) : ℚ) < ((6 * m : Int) : ℚ) := by exact_mod_cast h
      push_cast at h' ⊢; linarith
  have a70 : (((bpm:ℚ) / (m:ℚ)) * 100 < 70 ↔ 10 * bpm < 7 * m) := by
    rw [aux]
    constructor <;> intro h
    · exact_mod_cast (by push_cast at h ⊢; linarith : ((10 * bpm : Int) : ℚ) < ((7 * m : Int) : ℚ))
    · have h' : ((10 * bpm : Int) : ℚ) < ((7 * m : Int) : ℚ) := by exact_mod_cast h
      push_cast at h' ⊢; linarith
  have a80 : (((bpm:ℚ) / (m:ℚ)) * 100 < 80 ↔ 10 * bpm < 8 * m) := by
    rw [aux]
    constructor <;> intro h
    · exact_mod_cast (by push_cast at h ⊢; linarith : ((10 * bpm : Int) : ℚ) < ((8 * m : Int) : ℚ))
    · have h' : ((10 * bpm : Int) : ℚ) < ((8 * m : Int) : ℚ) := by exact_mod_cast h
      push_cast at h' ⊢; linarith
  have a90 : (((bpm:ℚ) / (m:ℚ)) * 100 < 90 ↔ 10 * bpm < 9 * m) := by
    rw [aux]
    constructor <;> intro h
    · exact_mod_cast (by push_cast at h ⊢; linarith : ((10 * bpm : Int) : ℚ) < ((9 * m : Int) : ℚ))
    · have h' : ((10 * bpm : Int) : ℚ) < ((9 * m : Int) : ℚ) := by exact_mod_cast h
      push_cast at h' ⊢; linarith
  simp only [calculate_hr_zones, a50, a60, a70, a80, a90]

/-! ### Helper lemmas about the bin generator -/

theorem binsFrom_eq_nil_of_ge (b : Int) (fuel : Nat) (cur : Int) (h : 1440 ≤ cur) :
    binsFrom b fuel cur = [] := by
  cases fuel <;> simp [binsFrom, not_lt.mpr h]

theorem binsFrom_mem (b : Int) :
    ∀ (fuel : Nat) (cur : Int), ∀ p ∈ binsFrom b fuel cur,
      ∃ k : Nat, p.1 = cur + (k : Int) * b ∧ p.2 = cur + ((k : Int) + 1) * b ∧ p.1 < 1440 := by
  intro fuel
  induction fuel with
  | zero => intro cur p hp; simp [binsFrom] at hp
  | succ n ih =>
    intro cur p hp
    by_cases hc : cur < 1440
    · simp only [binsFrom, if_pos hc, List.mem_cons] at hp
      rcases hp with rfl | hp
      · exact ⟨0, by push_cast; ring, by push_cast; ring, hc⟩
      · obtain ⟨k, h1, h2, h3⟩ := ih (cur + b) p hp
        refine ⟨k + 1, ?_, ?_, h3⟩
        · rw [h1]; push_cast; ring
        · rw [h2]; push_cast; ring
    · simp only [binsFrom, if_neg hc] at hp
      simp at hp

theorem binsFrom_head_shape (b : Int) (fuel : Nat) (cur : Int) :
    binsFrom b fuel cur = [] ∨
      ∃ rest, binsFrom b fuel cur = (cur, cur + b) :: rest := by
  cases fuel with
  | zero => exact Or.inl rfl
  | succ n =>
    by_cases hc : cur < 1440
    · exact Or.inr ⟨binsFrom b n (cur + b), by simp [binsFrom, if_pos hc]⟩
    · exact Or.inl (by simp [binsFrom, if_neg hc])

theorem binsFrom_chain (b : Int) :
    ∀ (fuel : Nat) (cur : Int),
      List.Chain' (fun p q : Int × Int => p.2 = q.1) (binsFrom b fuel cur) := by
  intro fuel
  induction fuel with
  | zero => intro cur; simp [binsFrom]
  | succ n ih =>
    intro cur
    by_cases hc : cur < 1440
    · simp only [binsFrom, if_pos hc]
      rw [List.chain'_cons']
      refine ⟨?_, ih (cur + b)⟩
      intro q hq
      rcases binsFrom_head_shape b n (cur + b) with hnil | ⟨rest, hcons⟩
      · rw [hnil] at hq; simp at hq
      · rw [hcons] at hq; simp at hq; simp [← hq]
    · simp [binsFrom, if_neg hc]

theorem binsFrom_coverage (b : Int) (hb : 0 < b) :
    ∀ (fuel : Nat) (cur t : Int), 1440 - cur ≤ (fuel : Int) → cur ≤ t → t < 1440 →
      ∃ p ∈ binsFrom b fuel cur, p.1 ≤ t ∧ t < p.2 := by
  intro fuel
  induction fuel with
  | zero =>
    intro cur t hf hct ht
    simp only [Nat.cast_zero] at hf
    omega
  | succ n ih =>
    intro cur t hf hct ht
    have hc : cur < 1440 := by omega
    simp only [binsFrom, if_pos hc]
    by_cases hlt : t < cur + b
    · exact ⟨(cur, cur + b), List.mem_cons_self _ _, hct, hlt⟩
    · push_neg at hlt
      have hf' : 1440 - (cur + b) ≤ (n : Int) := by
        push_cast at hf ⊢; omega
      obtain ⟨p, hp, h1, h2⟩ := ih (cur + b) t hf' hlt ht
      exact ⟨p, List.mem_cons_of_mem _ hp, h1, h2⟩

theorem binsFrom_getLast (b : Int) (hb : 0 < b) :
    ∀ (fuel : Nat) (cur : Int), 1440 - cur ≤ (fuel : Int) → cur < 1440 →
      ∃ q, (binsFrom b fuel cur).getLast? = some q ∧ 1440 ≤ q.2 ∧ q.2 = q.1 + b := by
  intro fuel
  induction fuel with
  | zero =>
    intro cur hf hc
    simp only [Nat.cast_zero] at hf
    omega
  | succ n ih =>
    intro cur hf hc
    simp only [binsFrom, if_pos hc]
    by_cases h2 : cur + b < 1440
    · have hf' : 1440 - (cur + b) ≤ (n : Int) := by push_cast at hf ⊢; omega
      obtain ⟨q, hq, hq2, hq3⟩ := ih (cur + b) hf' h2
      refine ⟨q, ?_, hq2, hq3⟩
      rcases binsFrom_head_shape b n (cur + b) with hnil | ⟨rest, hcons⟩
      · rw [hnil] at hq; simp at hq
      · rw [hcons] at hq ⊢
        rw [List.getLast?_cons_cons]
        exact hq
    · push_neg at h2
      have hnil : binsFrom b n (cur + b) = [] := binsFrom_eq_nil_of_ge b n (cur + b) h2
      rw [hnil]
      exact ⟨(cur, cur + b), rfl, h2, rfl⟩

/-- The amended C1 bin-sequence invariant: bins start at local midnight,
are contiguous, each is exactly `bin_minutes` long (never short), they
cover `[midnight, midnight+24h)`, every bin starts before the following
midnight at a multiple of `bin_minutes`, and the final bin ends at or
after the following midnight — strictly after whenever `bin_minutes` does
not divide 1440. -/
def TimeBinsSpec (b : Int) : Prop :=
  (create_time_bins b).head? = some (0, b) ∧
  List.Chain' (fun p q : Int × Int => p.2 = q.1) (create_time_bins b) ∧
  (∀ p ∈ create_time_bins b, p.2 = p.1 + b ∧ 0 ≤ p.1 ∧ p.1 < 1440 ∧ b ∣ p.1) ∧
  (∀ t : Int, 0 ≤ t → t < 1440 → ∃ p ∈ create_time_bins b, p.1 ≤ t ∧ t < p.2) ∧
  (∃ q, (create_time_bins b).getLast? = some q ∧ 1440 ≤ q.2 ∧ (¬ b ∣ 1440 → 1440 < q.2))

/-- C1 (amended): for every positive `bin_minutes`, `create_time_bins`
returns a contiguous sequence starting at local midnight, with every bin
nonempty and exactly `bin_minutes` long, covering `[0, 1440)`; the final
bin ends at or after the following midnight, and strictly after it (an
overshoot, not a short bin) when `bin_minutes` does not divide 1440. -/
theorem create_time_bins_day_partition (b : Int) (hb : 0 < b) : TimeBinsSpec b := by
  refine ⟨?_, binsFrom_chain b 1440 0, ?_, ?_, ?_⟩
  · rcases binsFrom_head_shape b 1440 0 with hnil | ⟨rest, hcons⟩
    · exfalso
      obtain ⟨p, hp, _, _⟩ := binsFrom_coverage b hb 1440 0 0 (by norm_num) le_rfl (by norm_num)
      rw [hnil] at hp; simp at hp
    · rw [create_time_bins, hcons]; simp
  · intro p hp
    obtain ⟨k, h1, h2, h3⟩ := binsFrom_mem b 1440 0 p hp
    refine ⟨by rw [h1, h2]; ring, ?_, h3, ?_⟩
    · rw [h1]; positivity
    · exact ⟨k, by rw [h1]; ring⟩
  · intro t ht0 ht1
    exact binsFrom_coverage b hb 1440 0 t (by norm_num) ht0 ht1
  · obtain ⟨q, hq, hq2, hq3⟩ := binsFrom_getLast b hb 1440 0 (by norm_num) (by norm_num)
    refine ⟨q, hq, hq2, ?_⟩
    intro hndvd
    rcases lt_or_eq_of_le hq2 with h | h
    · exact h
    · exfalso
      apply hndvd
      have hqmem : q ∈ create_time_bins b := by
        obtain ⟨hne, heq⟩ := List.mem_getLast?_eq_getLast
          (show q ∈ (create_time_bins b).getLast? from hq)
        rw [heq]
        exact List.getLast_mem hne
      obtain ⟨k, h1, _, _⟩ := binsFrom_mem b 1440 0 q hqmem
      have hdvd : b ∣ q.1 := ⟨k, by rw [h1]; ring⟩
      rw [h, hq3]
      exact Dvd.dvd.add hdvd ⟨1, by ring⟩

/-- Witness for C1's amended theorem at `bin_minutes = 15`. -/
theorem create_time_bins_day_partition_witness : TimeBinsSpec 15 :=
  create_time_bins_day_partition 15 (by decide)

/-- C1 counterexample to the claim as stated: with `bin_minutes = 1300`
(which does not divide 1440) the final bin is `(1300, 2600)` — a full-width
bin overshooting the following midnight (1440), not a short bin ending
exactly at it. -/
theorem create_time_bins_no_short_final_bin_cex :
    create_time_bins 1300 = [(0, 1300), (1300, 2600)] ∧
      (create_time_bins 1300).getLast? = some (1300, 2600) ∧
      (2600 : Int) ≠ 1440 ∧ ¬ ((1300 : Int) ∣ 1440) := by
  refine ⟨by decide, by decide, by decide, ?_⟩
  decide

/-! ### Helper lemmas about the insertion-ordered tally dictionary -/

/-- Keys of the association list, in insertion order. -/
def dictKeys (d : List (Nat × Nat)) : List Nat := d.map Prod.fst

theorem dictIncr_ne_nil (d : List (Nat × Nat)) (k : Nat) : dictIncr d k ≠ [] := by
  cases d with
  | nil => simp [dictIncr]
  | cons hd tl =>
    obtain ⟨a, v⟩ := hd
    by_cases h : a = k <;> simp [dictIncr, h]

theorem dictLookup_dictIncr (d : List (Nat × Nat)) (k k' : Nat) :
    dictLookup (dictIncr d k) k' = dictLookup d k' + if k' = k then 1 else 0 := by
  induction d with
  | nil =>
    simp only [dictIncr, dictLookup]
    by_cases h : k = k'
    · subst h; simp
    · simp [h, Ne.symm h]
  | cons hd tl ih =>
    obtain ⟨a, v⟩ := hd
    simp only [dictIncr]
    by_cases hak : a = k
    · rw [if_pos hak]
      simp only [dictLookup]
      by_cases h : a = k'
      · rw [if_pos h, if_pos h, if_pos (h.symm.trans hak)]
      · rw [if_neg h, if_neg h, if_neg (fun hh => h (hak.trans hh.symm))]
        omega
    · rw [if_neg hak]
      simp only [dictLookup]
      by_cases h : a = k'
      · rw [if_pos h, if_pos h, if_neg (fun hh => hak (h.trans hh))]
        omega
      · rw [if_neg h, if_neg h, ih]

theorem dictLookup_foldl_dictIncr (zs : List Nat) :
    ∀ (d : List (Nat × Nat)) (k : Nat),
      dictLookup (zs.foldl dictIncr d) k = dictLookup d k + zs.count k := by
  induction zs with
  | nil => intro d k; simp
  | cons z zs ih =>
    intro d k
    simp only [List.foldl_cons]
    rw [ih (dictIncr d z) k, dictLookup_dictIncr, List.count_cons]
    by_cases h : k = z
    · subst h
      simp only [if_pos rfl, beq_self_eq_true, if_true]
      omega
    · simp only [if_neg h, beq_iff_eq]
      rw [if_neg (fun hh => h hh.symm)]
      omega

theorem sumValues_dictIncr (d : List (Nat × Nat)) (k : Nat) :
    sumValues (dictIncr d k) = sumValues d + 1 := by
  induction d with
  | nil => rfl
  | cons hd tl ih =>
    obtain ⟨a, v⟩ := hd
    by_cases h : a = k
    · simp only [dictIncr, if_pos h, sumValues, List.map_cons, List.sum_cons]
      omega
    · simp only [dictIncr, if_neg h]
      simp only [sumValues, List.map_cons, List.sum_cons] at ih ⊢
      omega

theorem sumValues_foldl_dictIncr (zs : List Nat) :
    ∀ d : List (Nat × Nat), sumValues (zs.foldl dictIncr d) = sumValues d + zs.length := by
  induction zs with
  | nil => intro d; simp
  | cons z zs ih =>
    intro d
    simp only [List.foldl_cons, List.length_cons]
    rw [ih (dictIncr d z), sumValues_dictIncr]
    omega

theorem dictKeys_dictIncr (d : List (Nat × Nat)) (k : Nat) :
    dictKeys (dictIncr d k) =
      if k ∈ dictKeys d then dictKeys d else dictKeys d ++ [k] := by
  induction d with
  | nil => simp [dictIncr, dictKeys]
  | cons hd tl ih =>
    obtain ⟨a, v⟩ := hd
    by_cases h : a = k
    · subst h
      simp [dictIncr, dictKeys]
    · simp only [dictIncr, if_neg h, dictKeys, List.map_cons, List.mem_cons]
      simp only [dictKeys] at ih
      rw [ih]
      by_cases hm : k ∈ tl.map Prod.fst
      · simp [hm]
      · simp only [hm, if_neg hm, or_false, if_false]
        rw [if_neg (fun hh : k = a => h (Eq.symm hh))]
        rfl

theorem dictKeys_nodup_dictIncr (d : List (Nat × Nat)) (k : Nat)
    (h : (dictKeys d).Nodup) : (dictKeys (dictIncr d k)).Nodup := by
  rw [dictKeys_dictIncr]
  by_cases hm : k ∈ dictKeys d
  · simp [hm, h]
  · simp [hm, List.nodup_append, h]

theorem dictKeys_nodup_foldl (zs : List Nat) :
    ∀ d : List (Nat × Nat), (dictKeys d).Nodup → (dictKeys (zs.foldl dictIncr d)).Nodup := by
  induction zs with
  | nil => intro d h; exact h
  | cons z zs ih =>
    intro d h
    exact ih (dictIncr d z) (dictKeys_nodup_dictIncr d z h)

theorem dictLookup_eq_of_mem (d : List (Nat × Nat)) (h : (dictKeys d).Nodup)
    {k v : Nat} (hm : (k, v) ∈ d) : dictLookup d k = v := by
  induction d with
  | nil => simp at hm
  | cons hd tl ih =>
    obtain ⟨a, w⟩ := hd
    simp only [dictKeys, List.map_cons, List.nodup_cons] at h
    rcases List.mem_cons.mp hm with heq | hm'
    · cases heq
      simp [dictLookup]
    · have hak : a ≠ k := by
        intro hh
        subst hh
        exact h.1 (List.mem_map.mpr ⟨(a, v), hm', rfl⟩)
      simp only [dictLookup, if_neg hak]
      exact ih h.2 hm'

theorem mem_of_mem_dictKeys (d : List (Nat × Nat)) {k : Nat}
    (h : k ∈ dictKeys d) : (k, dictLookup d k) ∈ d := by
  induction d with
  | nil => simp [dictKeys] at h
  | cons hd tl ih =>
    obtain ⟨a, w⟩ := hd
    rcases List.mem_cons.mp h with heq | hm
    · subst heq
      simp [dictLookup]
    · by_cases hak : a = k
      · subst hak; simp [dictLookup]
      · simp only [dictLookup, if_neg hak]
        exact List.mem_cons_of_mem _ (ih hm)

theorem mem_count_pos_of_mem_dictKeys_foldl (zs : List Nat) :
    ∀ (d : List (Nat × Nat)) (k : Nat),
      k ∈ dictKeys (zs.foldl dictIncr d) → k ∈ dictKeys d ∨ k ∈ zs := by
  induction zs with
  | nil => intro d k h; exact Or.inl h
  | cons z zs ih =>
    intro d k h
    rcases ih (dictIncr d z) k h with hm | hm
    · rw [dictKeys_dictIncr] at hm
      by_cases hz : z ∈ dictKeys d
      · rw [if_pos hz] at hm; exact Or.inl hm
      · rw [if_neg hz] at hm
        rcases List.mem_append.mp hm with hm' | hm'
        · exact Or.inl hm'
        · simp at hm'
          subst hm'
          exact Or.inr (List.mem_cons_self _ _)
    · exact Or.inr (List.mem_cons_of_mem _ hm)

/-! ### Helper lemmas about Python `max(keys, key=...)` -/

theorem pyMaxGo_spec :
    ∀ (l : List (Nat × Nat)) (bk bv : Nat),
      (pyMaxGo bk bv l = bk ∧ ∀ q ∈ l, q.2 ≤ bv) ∨
      (∃ q ∈ l, pyMaxGo bk bv l = q.1 ∧ bv < q.2 ∧ ∀ r ∈ l, r.2 ≤ q.2) := by
  intro l
  induction l with
  | nil => intro bk bv; exact Or.inl ⟨rfl, by simp⟩
  | cons hd tl ih =>
    intro bk bv
    obtain ⟨k, v⟩ := hd
    simp only [pyMaxGo]
    by_cases h : bv < v
    · rw [if_pos h]
      rcases ih k v with ⟨he, hb⟩ | ⟨q, hq, he, hv, hb⟩
      · refine Or.inr ⟨(k, v), List.mem_cons_self _ _, he, h, ?_⟩
        intro r hr
        rcases List.mem_cons.mp hr with rfl | hr
        · exact le_refl _
        · exact hb r hr
      · refine Or.inr ⟨q, List.mem_cons_of_mem _ hq, he, lt_trans h hv, ?_⟩
        intro r hr
        rcases List.mem_cons.mp hr with rfl | hr
        · exact le_of_lt hv
        · exact hb r hr
    · rw [if_neg h]
      push_neg at h
      rcases ih bk bv with ⟨he, hb⟩ | ⟨q, hq, he, hv, hb⟩
      · refine Or.inl ⟨he, ?_⟩
        intro r hr
        rcases List.mem_cons.mp hr with rfl | hr
        · exact h
        · exact hb r hr
      · refine Or.inr ⟨q, List.mem_cons_of_mem _ hq, he, hv, ?_⟩
        intro r hr
        rcases List.mem_cons.mp hr with rfl | hr
        · exact le_trans h (le_of_lt hv)
        · exact hb r hr

theorem pyMaxByCount_spec (d : List (Nat × Nat)) (k : Nat) (h : pyMaxByCount d = some k) :
    ∃ v, (k, v) ∈ d ∧ ∀ q ∈ d, q.2 ≤ v := by
  cases d with
  | nil => simp [pyMaxByCount] at h
  | cons hd tl =>
    obtain ⟨k0, v0⟩ := hd
    simp only [pyMaxByCount, Option.some.injEq] at h
    rcases pyMaxGo_spec tl k0 v0 with ⟨he, hb⟩ | ⟨q, hq, he, hv, hb⟩
    · rw [he] at h
      subst h
      refine ⟨v0, List.mem_cons_self _ _, ?_⟩
      intro q hq
      rcases List.mem_cons.mp hq with rfl | hq
      · exact le_refl _
      · exact hb q hq
    · rw [he] at h
      subst h
      refine ⟨q.2, ?_, ?_⟩
      · exact List.mem_cons_of_mem _ (by simpa using hq)
      · intro r hr
        rcases List.mem_cons.mp hr with rfl | hr
        · exact le_of_lt hv
        · exact hb r hr

theorem pyMaxByCount_eq_none (d : List (Nat × Nat)) : pyMaxByCount d = none ↔ d = [] := by
  cases d <;> simp [pyMaxByCount]

/-! ### Helper lemmas about Python min/max/sum -/

theorem foldl_min_le (xs : List Int) :
    ∀ a : Int, xs.foldl min a ≤ a ∧ ∀ y ∈ xs, xs.foldl min a ≤ y := by
  induction xs with
  | nil => intro a; exact ⟨le_refl a, by simp⟩
  | cons x xs ih =>
    intro a
    simp only [List.foldl_cons]
    obtain ⟨h1, h2⟩ := ih (min a x)
    refine ⟨le_trans h1 (min_le_left a x), ?_⟩
    intro y hy
    rcases List.mem_cons.mp hy with rfl | hy
    · exact le_trans h1 (min_le_right a y)
    · exact h2 y hy

theorem foldl_min_mem (xs : List Int) :
    ∀ a : Int, xs.foldl min a = a ∨ xs.foldl min a ∈ xs := by
  induction xs with
  | nil => intro a; exact Or.inl rfl
  | cons x xs ih =>
    intro a
    simp only [List.foldl_cons]
    rcases ih (min a x) with h | h
    · rcases min_choice a x with hc | hc
      · exact Or.inl (h.trans hc)
      · exact Or.inr (by rw [h, hc]; exact List.mem_cons_self _ _)
    · exact Or.inr (List.mem_cons_of_mem _ h)

theorem pyMin_spec (xs : List Int) (v : Int) (h : pyMin xs = some v) :
    v ∈ xs ∧ ∀ x ∈ xs, v ≤ x := by
  cases xs with
  | nil => simp [pyMin] at h
  | cons x xs =>
    simp only [pyMin, Option.some.injEq] at h
    subst h
    obtain ⟨h1, h2⟩ := foldl_min_le xs x
    refine ⟨?_, ?_⟩
    · rcases foldl_min_mem xs x with h | h
      · rw [h]; exact List.mem_cons_self _ _
      · exact List.mem_cons_of_mem _ h
    · intro y hy
      rcases List.mem_cons.mp hy with rfl | hy
      · exact h1
      · exact h2 y hy

theorem foldl_max_le (xs : List Int) :
    ∀ a : Int, a ≤ xs.foldl max a ∧ ∀ y ∈ xs, y ≤ xs.foldl max a := by
  induction xs with
  | nil => intro a; exact ⟨le_refl a, by simp⟩
  | cons x xs ih =>
    intro a
    simp only [List.foldl_cons]
    obtain ⟨h1, h2⟩ := ih (max a x)
    refine ⟨le_trans (le_max_left a x) h1, ?_⟩
    intro y hy
    rcases List.mem_cons.mp hy with rfl | hy
    · exact le_trans (le_max_right a y) h1
    · exact h2 y hy

theorem foldl_max_mem (xs : List Int) :
    ∀ a : Int, xs.foldl max a = a ∨ xs.foldl max a ∈ xs := by
  induction xs with
  | nil => intro a; exact Or.inl rfl
  | cons x xs ih =>
    intro a
    simp only [List.foldl_cons]
    rcases ih (max a x) with h | h
    · rcases max_choice a x with hc | hc
      · exact Or.inl (h.trans hc)
      · exact Or.inr (by rw [h, hc]; exact List.mem_cons_self _ _)
    · exact Or.inr (List.mem_cons_of_mem _ h)

theorem pyMax_spec (xs : List Int) (v : Int) (h : pyMax xs = some v) :
    v ∈ xs ∧ ∀ x ∈ xs, x ≤ v := by
  cases xs with
  | nil => simp [pyMax] at h
  | cons x xs =>
    simp only [pyMax, Option.some.injEq] at h
    subst h
    obtain ⟨h1, h2⟩ := foldl_max_le xs x
    refine ⟨?_, ?_⟩
    · rcases foldl_max_mem xs x with h | h
      · rw [h]; exact List.mem_cons_self _ _
      · exact List.mem_cons_of_mem _ h
    · intro y hy
      rcases List.mem_cons.mp hy with rfl | hy
      · exact h1
      · exact h2 y hy

theorem foldl_add_eq (xs : List Int) : ∀ a : Int, xs.foldl (· + ·) a = a + xs.sum := by
  induction xs with
  | nil => intro a; simp
  | cons x xs ih =>
    intro a
    simp only [List.foldl_cons, List.sum_cons]
    rw [ih (a + x)]
    ring

theorem pySum_eq_sum (xs : List Int) : pySum xs = xs.sum := by
  rw [pySum, foldl_add_eq]
  simp

/-- The zone classifier returns 0 exactly on non-positive bpm, for every
`max_hr` (the positive branch always yields 1-6). -/
theorem calculate_hr_zones_eq_zero (x m : Int) : calculate_hr_zones x m = 0 ↔ x ≤ 0 := by
  simp only [calculate_hr_zones]
  split_ifs <;> simp_all

/-- Stated from the claim's wording: the heart-rate samples located in the
bin's half-open range `[bin_start, bin_end)`, in input order. -/
def samplesInBin (bin_start bin_end : Int) (hr_data : List (Int × Int)) : List Int :=
  (hr_data.filter fun s => decide (bin_start ≤ s.1 ∧ s.1 < bin_end)).map Prod.snd

theorem samplesInBin_eq (bs be : Int) (hr_data : List (Int × Int)) :
    samplesInBin bs be hr_data =
      (hr_data.filter fun s => decide (bs ≤ s.1) && decide (s.1 < be)).map Prod.snd := by
  unfold samplesInBin
  congr 1
  apply List.filter_congr
  intro s _
  exact Bool.decide_and _ _

theorem dictLookup_eq_zero_of_not_mem (d : List (Nat × Nat)) {k : Nat}
    (h : k ∉ dictKeys d) : dictLookup d k = 0 := by
  induction d with
  | nil => rfl
  | cons hd tl ih =>
    obtain ⟨a, v⟩ := hd
    simp only [dictKeys, List.map_cons, List.mem_cons, not_or] at h
    simp only [dictLookup]
    rw [if_neg (fun hh => h.1 hh.symm)]
    exact ih (by simpa [dictKeys] using h.2)

/-- Python's `max(zone_counts.keys(), key=lambda k: zone_counts[k])` over a
tally built from the zone list `zs` returns a zone that occurs in `zs` and
whose occurrence count is maximal. -/
theorem pyMaxByCount_tally_spec (zs : List Nat) (z : Nat)
    (h : pyMaxByCount (zs.foldl dictIncr []) = some z) :
    z ∈ zs ∧ ∀ z', zs.count z' ≤ zs.count z := by
  obtain ⟨v, hmem, hbound⟩ := pyMaxByCount_spec _ z h
  have hnodup : (dictKeys (zs.foldl dictIncr [])).Nodup :=
    dictKeys_nodup_foldl zs [] (by simp [dictKeys])
  have hv : zs.count z = v := by
    have hlk := dictLookup_eq_of_mem _ hnodup hmem
    rw [dictLookup_foldl_dictIncr] at hlk
    simpa [dictLookup] using hlk
  constructor
  · have hk : z ∈ dictKeys (zs.foldl dictIncr []) :=
      List.mem_map.mpr ⟨(z, v), hmem, rfl⟩
    rcases mem_count_pos_of_mem_dictKeys_foldl zs [] z hk with hk' | hk'
    · simp [dictKeys] at hk'
    · exact hk'
  · intro z'
    have hl : zs.count z' = dictLookup (zs.foldl dictIncr []) z' := by
      rw [dictLookup_foldl_dictIncr]
      simp [dictLookup]
    by_cases hk : z' ∈ dictKeys (zs.foldl dictIncr [])
    · have hm2 := mem_of_mem_dictKeys _ hk
      have hb := hbound _ hm2
      rw [hl, hv]
      exact hb
    · rw [hl, dictLookup_eq_zero_of_not_mem _ hk]
      exact Nat.zero_le _

/-- Zone-0 tally: among the zones of a bpm list, the count of zone 0
equals the number of non-positive bpm values. -/
theorem count_zero_zones (xs : List Int) (m : Int) :
    ((xs.map fun x => calculate_hr_zones x m).count 0)
      = (xs.filter fun x => decide (x ≤ 0)).length := by
  induction xs with
  | nil => rfl
  | cons x xs ih
  =>
    simp only [List.map_cons, List.count_cons, List.filter_cons]
    by_cases hx : x ≤ 0
    · have hz : calculate_hr_zones x m = 0 := (calculate_hr_zones_eq_zero x m).mpr hx
      simp [hx, hz, ih]
    · have hz : ¬ calculate_hr_zones x m = 0 := by
        simp [calculate_hr_zones_eq_zero, hx]
      simp [hx, hz, ih]

/-! ### Claim theorems -/

/-- C10: for every bin, the counts in `zone_counts` sum to
`hr_readings_count`: every sample located in `[bin_start, bin_end)`,
including invalid samples with bpm ≤ 0 that classify to zone 0,
contributes exactly one tally entry. -/
theorem zone_counts_sum_eq_sample_count (bin_start bin_end : Int)
    (hr_data sleep_periods : List (Int × Int)) (max_hr : Int) :
    sumValues (calculate_dominant_zone_for_bin bin_start bin_end hr_data sleep_periods
        max_hr).zone_counts =
      (calculate_dominant_zone_for_bin bin_start bin_end hr_data sleep_periods
        max_hr).hr_readings_count := by
  simp only [calculate_dominant_zone_for_bin]
  rw [sumValues_foldl_dictIncr]
  simp [sumValues]

/-- C4 (amended): `hr_readings_count` counts every sample in the bin's
half-open range `[start, end)` regardless of validity, and avg/min/max are
computed over the raw bpm values of exactly those samples; but zone-0
(bpm ≤ 0) samples are NOT excluded from the per-zone tally: the tally of
each zone z equals the number of in-range samples classifying to z, with
zone 0 tallying the non-positive samples, so `dominant_zone` can be
`some 0` and is not confined to 1..6. -/
theorem bin_stats_raw_and_full_tally (bs be : Int)
    (hr_data sleep_periods : List (Int × Int)) (m : Int) :
    (calculate_dominant_zone_for_bin bs be hr_data sleep_periods m).hr_readings_count
        = (samplesInBin bs be hr_data).length ∧
    (∀ v, (calculate_dominant_zone_for_bin bs be hr_data sleep_periods m).min_hr = some v →
      v ∈ samplesInBin bs be hr_data ∧ ∀ x ∈ samplesInBin bs be hr_data, v ≤ x) ∧
    (∀ v, (calculate_dominant_zone_for_bin bs be hr_data sleep_periods m).max_hr = some v →
      v ∈ samplesInBin bs be hr_data ∧ ∀ x ∈ samplesInBin bs be hr_data, x ≤ v) ∧
    (samplesInBin bs be hr_data ≠ [] →
      (calculate_dominant_zone_for_bin bs be hr_data sleep_periods m).avg_hr =
        some (((samplesInBin bs be hr_data).sum : ℚ) /
          ((samplesInBin bs be hr_data).length : ℚ))) ∧
    (∀ z, dictLookup (calculate_dominant_zone_for_bin bs be hr_data sleep_periods m).zone_counts z
        = ((samplesInBin bs be hr_data).map fun x => calculate_hr_zones x m).count z) ∧
    (dictLookup (calculate_dominant_zone_for_bin bs be hr_data sleep_periods m).zone_counts 0
        = ((samplesInBin bs be hr_data).filter fun x => decide (x ≤ 0)).length) := by
  rw [samplesInBin_eq]
  simp only [calculate_dominant_zone_for_bin]
  refine ⟨by simp, ?_, ?_, ?_, ?_, ?_⟩
  · intro v hv
    exact pyMin_spec _ v hv
  · intro v hv
    exact pyMax_spec _ v hv
  · intro hne
    rw [if_neg (by simpa [List.isEmpty_iff] using hne), pySum_eq_sum]
  · intro z
    rw [dictLookup_foldl_dictIncr]
    simp [dictLookup]
  · rw [dictLookup_foldl_dictIncr]
    simp only [dictLookup, Nat.zero_add]
    exact count_zero_zones _ m

/-- C4 counterexample to the claim as stated: a bin containing a single
invalid sample (bpm = 0) tallies it as zone 0 and reports
`dominant_zone = some 0`, which is non-null and not in 1..6. -/
theorem dominant_zone_zero_cex :
    (calculate_dominant_zone_for_bin 0 60 [(10, 0)] [] 173).dominant_zone = some 0 ∧
      ¬ ∃ z, 1 ≤ z ∧ z ≤ 6 ∧
        (calculate_dominant_zone_for_bin 0 60 [(10, 0)] [] 173).dominant_zone = some z := by
  have hz : calculate_hr_zones 0 173 = 0 := rfl
  have hd : (calculate_dominant_zone_for_bin 0 60 [(10, 0)] [] 173).dominant_zone = some 0 := by
    simp only [calculate_dominant_zone_for_bin]
    norm_num [hz, dictIncr, pyMaxByCount, pyMaxGo]
  refine ⟨hd, ?_⟩
  rintro ⟨z, h1, h2, h3⟩
  rw [hd] at h3
  injection h3 with h4
  omega

/-- Witness for C4's amended theorem: on the concrete bin `[0, 60)` with
samples `(10, 5)` and `(20, 3)`, the reported minimum 3 is one of the
in-range samples. -/
theorem bin_stats_raw_and_full_tally_witness :
    (3 : Int) ∈ samplesInBin 0 60 [(10, 5), (20, 3)] := by
  exact ((bin_stats_raw_and_full_tally 0 60 [(10, 5), (20, 3)] [] 173).2.1 3 (by decide)).1

/-- C3 (amended): `dominant_zone` is a zone attaining the highest tally
among the bin's samples, but ties are broken by FIRST INSERTION ORDER
(first zone reaching the maximal count in sample order), not by smallest
zone number: the same multiset of samples gives `some 4` when the zone-4
samples come first and `some 2` when the zone-2 samples come first. -/
theorem dominant_zone_max_tally :
    (∀ (bs be : Int) (hr_data sleep_periods : List (Int × Int)) (m : Int) (z : Nat),
      (calculate_dominant_zone_for_bin bs be hr_data sleep_periods m).dominant_zone = some z →
        z ∈ (calculate_dominant_zone_for_bin bs be hr_data sleep_periods m).all_zones ∧
        ∀ z', (calculate_dominant_zone_for_bin bs be hr_data sleep_periods m).all_zones.count z'
            ≤ (calculate_dominant_zone_for_bin bs be hr_data sleep_periods m).all_zones.count z) ∧
    ((calculate_dominant_zone_for_bin 0 60 [(10, 130), (11, 130), (12, 90), (13, 90)]
        [] 173).all_zones = [4, 4, 2, 2] ∧
      (calculate_dominant_zone_for_bin 0 60 [(10, 130), (11, 130), (12, 90), (13, 90)]
        [] 173).dominant_zone = some 4) ∧
    ((calculate_dominant_zone_for_bin 0 60 [(10, 90), (11, 90), (12, 130), (13, 130)]
        [] 173).all_zones = [2, 2, 4, 4] ∧
      (calculate_dominant_zone_for_bin 0 60 [(10, 90), (11, 90), (12, 130), (13, 130)]
        [] 173).dominant_zone = some 2) := by
  have z130 : calculate_hr_zones 130 173 = 4 := by
    rw [calculate_hr_zones_eq_int 130 173 (by decide)]; decide
  have z90 : calculate_hr_zones 90 173 = 2 := by
    rw [calculate_hr_zones_eq_int 90 173 (by decide)]; decide
  refine ⟨?_, ⟨?_, ?_⟩, ⟨?_, ?_⟩⟩
  · intro bs be hr_data sleep_periods m z hz
    simp only [calculate_dominant_zone_for_bin] at hz ⊢
    exact pyMaxByCount_tally_spec _ z hz
  · simp only [calculate_dominant_zone_for_bin]
    norm_num [z130, z90]
  · simp only [calculate_dominant_zone_for_bin]
    norm_num [z130, z90, dictIncr, pyMaxByCount, pyMaxGo]
  · simp only [calculate_dominant_zone_for_bin]
    norm_num [z130, z90]
  · simp only [calculate_dominant_zone_for_bin]
    norm_num [z130, z90, dictIncr, pyMaxByCount, pyMaxGo]

/-- Witness for C3's amended theorem: in the bin whose zone list is
`[2, 2, 4, 4]` the dominant zone 2 has a tally at least that of zone 4. -/
theorem dominant_zone_max_tally_witness :
    (calculate_dominant_zone_for_bin 0 60 [(10, 90), (11, 90), (12, 130), (13, 130)]
        [] 173).all_zones.count 4
      ≤ (calculate_dominant_zone_for_bin 0 60 [(10, 90), (11, 90), (12, 130), (13, 130)]
        [] 173).all_zones.count 2 :=
  (dominant_zone_max_tally.1 0 60 [(10, 90), (11, 90), (12, 130), (13, 130)] [] 173 2
    dominant_zone_max_tally.2.2.2).2 4

/-- C3 counterexample to the claim as stated: a bin with two zone-2
samples and two zone-4 samples, the zone-4 samples appearing first, has
`dominant_zone = some 4`, not the claimed `some 2`. -/
theorem dominant_zone_smallest_tiebreak_cex :
    (calculate_dominant_zone_for_bin 0 60 [(10, 130), (11, 130), (12, 90), (13, 90)]
        [] 173).all_zones.count 2 = 2 ∧
    (calculate_dominant_zone_for_bin 0 60 [(10, 130), (11, 130), (12, 90), (13, 90)]
        [] 173).all_zones.count 4 = 2 ∧
    (calculate_dominant_zone_for_bin 0 60 [(10, 130), (11, 130), (12, 90), (13, 90)]
        [] 173).dominant_zone ≠ some 2 ∧
    (calculate_dominant_zone_for_bin 0 60 [(10, 130), (11, 130), (12, 90), (13, 90)]
        [] 173).dominant_zone = some 4 := by
  have z130 : calculate_hr_zones 130 173 = 4 := by
    rw [calculate_hr_zones_eq_int 130 173 (by decide)]; decide
  have z90 : calculate_hr_zones 90 173 = 2 := by
    rw [calculate_hr_zones_eq_int 90 173 (by decide)]; decide
  have hall : (calculate_dominant_zone_for_bin 0 60 [(10, 130), (11, 130), (12, 90), (13, 90)]
      [] 173).all_zones = [4, 4, 2, 2] := by
    simp only [calculate_dominant_zone_for_bin]
    norm_num [z130, z90]
  have hdom : (calculate_dominant_zone_for_bin 0 60 [(10, 130), (11, 130), (12, 90), (13, 90)]
      [] 173).dominant_zone = some 4 := by
    simp only [calculate_dominant_zone_for_bin]
    norm_num [z130, z90, dictIncr, pyMaxByCount, pyMaxGo]
  refine ⟨by rw [hall]; rfl, by rw [hall]; rfl, by rw [hdom]; simp, hdom⟩

/-- C5: a bin's `is_sleep` flag is true iff the bin midpoint (start plus
half the bin width) lies within the closed range `[start, end]` of at
least one sleep interval, and it does not depend on the heart-rate
samples. -/
theorem is_sleep_midpoint_only (bs be : Int)
    (hr_data sleep_periods : List (Int × Int)) (m : Int) :
    ((calculate_dominant_zone_for_bin bs be hr_data sleep_periods m).is_sleep = true ↔
      ∃ p ∈ sleep_periods,
        (p.1 : ℚ) ≤ (bs : ℚ) + ((be : ℚ) - (bs : ℚ)) / 2 ∧
          (bs : ℚ) + ((be : ℚ) - (bs : ℚ)) / 2 ≤ (p.2 : ℚ)) ∧
    (∀ hr_data' : List (Int × Int),
      (calculate_dominant_zone_for_bin bs be hr_data' sleep_periods m).is_sleep =
        (calculate_dominant_zone_for_bin bs be hr_data sleep_periods m).is_sleep) := by
  constructor
  · simp only [calculate_dominant_zone_for_bin, is_sleeping, List.any_eq_true,
      Bool.and_eq_true, decide_eq_true_eq]
  · intro hr_data'
    rfl

/-- The rational percentage threshold comparisons as integer cross
multiplications, for positive `max_hr`. -/
theorem pct_lt_iff (bpm m T : Int) (hm : 0 < m) :
    ((bpm:ℚ) / (m:ℚ)) * 100 < (T:ℚ) ↔ 100 * bpm < T * m := by
  have hmq : (0:ℚ) < (m:ℚ) := by exact_mod_cast hm
  rw [div_mul_eq_mul_div, div_lt_iff₀ hmq]
  constructor <;> intro h
  · exact_mod_cast (by push_cast at h ⊢; linarith : ((100 * bpm : Int) : ℚ) < ((T * m : Int) : ℚ))
  · have h' : ((100 * bpm : Int) : ℚ) < ((T * m : Int) : ℚ) := by exact_mod_cast h
    push_cast at h' ⊢; linarith

/-- C2: for every integer bpm and maxHr > 0 the classifier returns 0 on
bpm ≤ 0 and otherwise classifies percentage = bpm/maxHr*100 into the
half-open bands `[50,60) → 2`, `[60,70) → 3`, ..., with upper boundaries
excluded; in particular a percentage of exactly 60.0 (equivalently
`5*bpm = 3*maxHr`) yields zone 3, not 2. -/
theorem calculate_hr_zones_boundaries (bpm m : Int) (hm : 0 < m) :
    (bpm ≤ 0 → calculate_hr_zones bpm m = 0) ∧
    (0 < bpm →
      ((calculate_hr_zones bpm m = 1 ↔ ((bpm:ℚ) / (m:ℚ)) * 100 < 50) ∧
       (calculate_hr_zones bpm m = 2 ↔
         50 ≤ ((bpm:ℚ) / (m:ℚ)) * 100 ∧ ((bpm:ℚ) / (m:ℚ)) * 100 < 60) ∧
       (calculate_hr_zones bpm m = 3 ↔
         60 ≤ ((bpm:ℚ) / (m:ℚ)) * 100 ∧ ((bpm:ℚ) / (m:ℚ)) * 100 < 70) ∧
       (calculate_hr_zones bpm m = 4 ↔
         70 ≤ ((bpm:ℚ) / (m:ℚ)) * 100 ∧ ((bpm:ℚ) / (m:ℚ)) * 100 < 80) ∧
       (calculate_hr_zones bpm m = 5 ↔
         80 ≤ ((bpm:ℚ) / (m:ℚ)) * 100 ∧ ((bpm:ℚ) / (m:ℚ)) * 100 < 90) ∧
       (calculate_hr_zones bpm m = 6 ↔ 90 ≤ ((bpm:ℚ) / (m:ℚ)) * 100))) ∧
    (((bpm:ℚ) / (m:ℚ)) * 100 = 60 ↔ 5 * bpm = 3 * m) ∧
    (5 * bpm = 3 * m → calculate_hr_zones bpm m = 3) := by
  have hmq : (0:ℚ) < (m:ℚ) := by exact_mod_cast hm
  have h50 := pct_lt_iff bpm m 50 hm
  have h60 := pct_lt_iff bpm m 60 hm
  have h70 := pct_lt_iff bpm m 70 hm
  have h80 := pct_lt_iff bpm m 80 hm
  have h90 := pct_lt_iff bpm m 90 hm
  norm_num at h50 h60 h70 h80 h90
  have heq60 : ((bpm:ℚ) / (m:ℚ)) * 100 = 60 ↔ 5 * bpm = 3 * m := by
    rw [div_mul_eq_mul_div, div_eq_iff (ne_of_gt hmq)]
    constructor <;> intro h
    · have h2 : bpm * 100 = 60 * m := by exact_mod_cast h
      omega
    · have h2 : bpm * 100 = 60 * m := by omega
      have h3 : ((bpm * 100 : Int) : ℚ) = ((60 * m : Int) : ℚ) := by exact_mod_cast h2
      push_cast at h3 ⊢
      linarith
  refine ⟨?_, ?_, heq60, ?_⟩
  · intro h
    simp [calculate_hr_zones, h]
  · intro hb
    rw [calculate_hr_zones_eq_int bpm m hm, if_neg (not_le.mpr hb)]
    simp only [← not_lt, h50, h60, h70, h80, h90]
    split_ifs <;> omega
  · intro h5
    rw [calculate_hr_zones_eq_int bpm m hm]
    split_ifs <;> omega

/-- Witness for C2 at concrete inputs: percentage exactly 60
(`bpm = 3, maxHr = 5`) yields zone 3, and non-positive bpm yields zone 0. -/
theorem calculate_hr_zones_boundaries_witness :
    calculate_hr_zones 3 5 = 3 ∧ calculate_hr_zones (-7) 173 = 0 :=
  ⟨(calculate_hr_zones_boundaries 3 5 (by decide)).2.2.2 (by decide),
    (calculate_hr_zones_boundaries (-7) 173 (by decide)).1 (by decide)⟩

/-- C9: for fixed maxHr > 0 the zone classifier is monotone in bpm. -/
theorem calculate_hr_zones_monotone (bpm m : Int) (hm : 0 < m) :
    calculate_hr_zones bpm m ≤ calculate_hr_zones (bpm + 1) m := by
  rw [calculate_hr_zones_eq_int bpm m hm, calculate_hr_zones_eq_int (bpm + 1) m hm]
  split_ifs <;> omega

/-- Witness for C9 at `bpm = 103, maxHr = 173`. -/
theorem calculate_hr_zones_monotone_witness :
    calculate_hr_zones 103 173 ≤ calculate_hr_zones 104 173 :=
  calculate_hr_zones_monotone 103 173 (by decide)

/-- C7 (amended): the zone classifier performs NO maxHr validation: with
maxHr = 0 and bpm > 0 the division raises ZeroDivisionError (modelled as
`none`), with negative maxHr it returns normally — zone 1 for every
positive bpm — and for any nonzero maxHr it returns a zone for every
integer bpm; bpm ≤ 0 short-circuits to zone 0 before the division. -/
theorem zone_classifier_no_validation (bpm m : Int) :
    (bpm ≤ 0 → calculate_hr_zones_opt bpm m = some 0) ∧
    (0 < bpm → m = 0 → calculate_hr_zones_opt bpm m = none) ∧
    (0 < bpm → m < 0 → calculate_hr_zones_opt bpm m = some 1) ∧
    (m ≠ 0 → calculate_hr_zones_opt bpm m = some (calculate_hr_zones bpm m)) := by
  refine ⟨?_, ?_, ?_, ?_⟩
  · intro h
    simp [calculate_hr_zones_opt, h]
  · intro hb hm0
    simp [calculate_hr_zones_opt, not_le.mpr hb, hm0]
  · intro hb hmneg
    have hb' : ¬ bpm ≤ 0 := not_le.mpr hb
    rw [calculate_hr_zones_opt, if_neg hb', if_neg (by omega : ¬ m = 0)]
    congr 1
    simp only [calculate_hr_zones, if_neg hb']
    have hneg : ((bpm:ℚ) / (m:ℚ)) * 100 < 50 := by
      have hbq : (0:ℚ) < (bpm:ℚ) := by exact_mod_cast hb
      have hmq : (m:ℚ) < 0 := by exact_mod_cast hmneg
      have hdiv : (bpm:ℚ) / (m:ℚ) < 0 := div_neg_of_pos_of_neg hbq hmq
      nlinarith
    rw [if_pos hneg]
  · intro hm0
    rcases le_or_lt bpm 0 with h | h
    · simp [calculate_hr_zones_opt, calculate_hr_zones, h]
    · simp [calculate_hr_zones_opt, not_le.mpr h, hm0]

/-- Witness for C7's amended theorem: bpm ≤ 0 short-circuits even when
maxHr = 0, while a positive bpm with maxHr = 0 hits the division. -/
theorem zone_classifier_no_validation_witness :
    calculate_hr_zones_opt (-7) 0 = some 0 ∧ calculate_hr_zones_opt 7 0 = none :=
  ⟨(zone_classifier_no_validation (-7) 0).1 (by decide),
    (zone_classifier_no_validation 7 0).2.1 (by decide) rfl⟩

/-- C7 counterexample to the claim as stated: with maxHr = -10 (a
non-positive configuration) the classifier does not fail at all — it
returns zone 1 — and with maxHr = 0 it raises ZeroDivisionError, not an
InvalidConfig validation error; no InvalidConfig path exists in the code. -/
theorem invalid_config_not_raised_cex :
    calculate_hr_zones_opt 100 (-10) = some 1 ∧ calculate_hr_zones_opt 100 0 = none := by
  constructor
  · norm_num [calculate_hr_zones_opt, calculate_hr_zones]
  · norm_num [calculate_hr_zones_opt]

theorem create_time_bins_ne_nil (b : Int) (hb : 0 < b) : create_time_bins b ≠ [] := by
  intro hnil
  obtain ⟨p, hp, _, _⟩ := binsFrom_coverage b hb 1440 0 0 (by norm_num) le_rfl (by norm_num)
  rw [create_time_bins] at hnil
  rw [hnil] at hp
  simp at hp

/-- C6's conclusion: on a day with no sleep intervals and no heart-rate
samples the engine returns (it is total), and its output is a nonempty,
contiguous bin sequence starting at local midnight and covering the whole
day, in which every bin has `is_sleep = false` and `dominant_zone = none`. -/
def GapFreeEmptyDay (bin_minutes max_hr : Int) : Prop :=
  create_chronological_waffle_data bin_minutes max_hr [] [] ≠ [] ∧
  (∀ r ∈ create_chronological_waffle_data bin_minutes max_hr [] [],
    r.is_sleep = false ∧ r.dominant_zone = none) ∧
  ((create_chronological_waffle_data bin_minutes max_hr [] []).head?).map
      (fun r => r.bin_start) = some 0 ∧
  List.Chain' (fun r s : BinResult => r.bin_end = s.bin_start)
    (create_chronological_waffle_data bin_minutes max_hr [] []) ∧
  (∀ t : Int, 0 ≤ t → t < 1440 →
    ∃ r ∈ create_chronological_waffle_data bin_minutes max_hr [] [],
      r.bin_start ≤ t ∧ t < r.bin_end)

/-- C6: with an empty sleep-interval list and an empty heart-rate list the
engine returns a full gap-free bin sequence for the day in which every bin
has `is_sleep = false` and `dominant_zone = none` (no exception: in this
embedding the pipeline is a total function). -/
theorem empty_day_gap_free (b m : Int) (hb : 0 < b) : GapFreeEmptyDay b m := by
  refine ⟨?_, ?_, ?_, ?_, ?_⟩
  · simp only [create_chronological_waffle_data, ne_eq, List.map_eq_nil_iff]
    exact create_time_bins_ne_nil b hb
  · intro r hr
    obtain ⟨p, hp, rfl⟩ := List.mem_map.mp hr
    exact ⟨rfl, rfl⟩
  · rw [create_chronological_waffle_data, List.head?_map]
    have hhead : (create_time_bins b).head? = some (0, b) := by
      rcases binsFrom_head_shape b 1440 0 with hnil | ⟨rest, hcons⟩
      · exact absurd hnil (create_time_bins_ne_nil b hb)
      · rw [create_time_bins, hcons]
        simp
    rw [hhead]
    rfl
  · rw [create_chronological_waffle_data, List.chain'_map]
    exact binsFrom_chain b 1440 0
  · intro t ht0 ht1
    obtain ⟨p, hp, hp1, hp2⟩ := binsFrom_coverage b hb 1440 0 t (by norm_num) ht0 ht1
    exact ⟨_, List.mem_map_of_mem _ hp, hp1, hp2⟩

/-- Witness for C6 at the default configuration (15-minute bins,
maxHr = 173). -/
theorem empty_day_gap_free_witness : GapFreeEmptyDay 15 173 :=
  empty_day_gap_free 15 173 (by decide)

/-- C8: the aggregate zone distribution of `print_waffle_summary` counts,
for each zone z, exactly the bins with `is_sleep = false` and
`dominant_zone = some z`; inserting a sleep bin anywhere leaves every
zone count unchanged, whatever its dominant zone or samples were. -/
theorem summary_counts_awake_only :
    (∀ (waffle_data : List BinResult) (z : Nat),
      dictLookup (summary_zone_counts waffle_data) z =
        (waffle_data.filter fun r =>
          (!r.is_sleep) && decide (r.dominant_zone = some z)).length) ∧
    (∀ (l1 l2 : List BinResult) (r : BinResult), r.is_sleep = true →
      summary_zone_counts (l1 ++ r :: l2) = summary_zone_counts (l1 ++ l2)) := by
  constructor
  · have go : ∀ (w : List BinResult) (acc : List (Nat × Nat)) (z : Nat),
        dictLookup (w.foldl (fun acc b =>
          match b.dominant_zone with
          | some zz => if b.is_sleep then acc else dictIncr acc zz
          | none => acc) acc) z
          = dictLookup acc z +
            (w.filter fun r => (!r.is_sleep) && decide (r.dominant_zone = some z)).length := by
      intro w
      induction w with
      | nil => intro acc z; simp
      | cons r w ih =>
        intro acc z
        simp only [List.foldl_cons, List.filter_cons]
        rcases hdz : r.dominant_zone with _ | zz
        · rw [ih]
          simp [hdz]
        · by_cases hs : r.is_sleep
          · rw [ih]
            simp [hdz, hs]
          · simp only [hdz, hs, Bool.false_eq_true, if_false]
            rw [ih (dictIncr acc zz) z, dictLookup_dictIncr]
            by_cases hzz : zz = z
            · subst hzz
              simp only [hs, Bool.not_false, Bool.true_and, decide_eq_true_eq,
                Option.some.injEq]
              simp only [if_true, List.length_cons]
              omega
            · simp only [hs, Bool.not_false, Bool.true_and, decide_eq_true_eq,
                Option.some.injEq]
              rw [if_neg (fun hh => hzz hh.symm)]
              simp [hzz]
    intro waffle_data z
    rw [summary_zone_counts, go]
    simp [dictLookup]
  · intro l1 l2 r hr
    simp only [summary_zone_counts, List.foldl_append, List.foldl_cons]
    rcases hdz : r.dominant_zone with _ | zz <;> simp [hdz, hr]

/-- A concrete all-sleep bin carrying a dominant zone, used to witness the
sleep-exclusion part of C8. -/
def sleepBinExample : BinResult :=
  { bin_start := 0
    bin_end := 15
    is_sleep := true
    hr_readings_count := 1
    avg_hr := none
    min_hr := none
    max_hr := none
    dominant_zone := some 3
    zone_counts := [(3, 1)]
    all_zones := [3] }

/-- Witness for C8: inserting the sleep bin (which carries
`dominant_zone = some 3`) into an empty report changes nothing. -/
theorem summary_counts_awake_only_witness :
    summary_zone_counts ([] ++ sleepBinExample :: []) = summary_zone_counts ([] ++ []) :=
  summary_counts_awake_only.2 [] [] sleepBinExample rfl

end Waffle
